import Mathlib

/-!
Verification of the e57 extraction-and-submission pipeline.

The development shallowly embeds the algorithmic core of the repository:
view enumeration and grouping from `unpack.py`, the quaternion-to-matrix
conversion and metadata construction from `unpack.py`, and the spatial
deduplication, coordinate-frame correction and capture-request assembly
from `submit.py`.  Machine floats are modelled by exact rationals; the one
place where IEEE special values matter (normalising an all-zero
quaternion) uses an explicit special-value type.
-/

set_option maxHeartbeats 1000000

/-! ## View enumeration and grouping (`unpack.unpack`) -/

/-- Model of the Python iteration `range(0, stop, step)` (for positive
`step`): the multiples of `step` below `stop`, in increasing order. -/
def pyRangeStep (stop step : ℕ) : List ℕ :=
  (List.range stop).filter (fun i => i % step == 0)

/-- The `nodes` dictionary built for the scan group starting at node `i` in
the `separate_scans` branch of `unpack`: with `front_views_only` only node
`i + 1` (when it exists), otherwise the nodes `i + j` for `j` in
`range(6)` with `i + j < count`. -/
def groupNodes (count i : ℕ) (front_views_only : Bool) : List ℕ :=
  if front_views_only then
    (if i + 1 < count then [i + 1] else [])
  else
    (List.range 6).filterMap (fun j => if i + j < count then some (i + j) else none)

/-- The `separate_scans=True` loop of `unpack`: for each group start `i`
(a multiple of 6 below `count`), the scan number `i / 6 + 1` naming the
output sub-directory `scan<n>`, paired with the node indices extracted
into it. -/
def unpackScans (count : ℕ) (front_views_only : Bool) : List (ℕ × List ℕ) :=
  (pyRangeStep count 6).map (fun i => (i / 6 + 1, groupNodes count i front_views_only))

/-- The `separate_scans=False` loop of `unpack`: every index `i` in
`range(count)`, skipping those with `i % 6 != 1` when `front_views_only`
is set. -/
def unpackFlat (count : ℕ) (front_views_only : Bool) : List ℕ :=
  (List.range count).filter (fun i => !front_views_only || i % 6 == 1)

theorem groupNodes_mem_lt (count i : ℕ) (fr : Bool) :
    ∀ m ∈ groupNodes count i fr, m < count := by
  intro m hm
  cases fr with
  | true =>
    unfold groupNodes at hm
    simp only [if_true] at hm
    split at hm
    · simp at hm; omega
    · simp at hm
  | false =>
    unfold groupNodes at hm
    simp only [Bool.false_eq_true, if_false, List.mem_filterMap] at hm
    obtain ⟨j, _, hj⟩ := hm
    split at hj
    · cases hj; omega
    · cases hj

theorem groupNodes_length_le (count i : ℕ) (fr : Bool) :
    (groupNodes count i fr).length ≤ 6 := by
  cases fr with
  | true =>
    unfold groupNodes
    simp only [if_true]
    split <;> simp
  | false =>
    unfold groupNodes
    simp only [Bool.false_eq_true, if_false]
    calc ((List.range 6).filterMap _).length ≤ (List.range 6).length :=
          List.length_filterMap_le _ _
      _ = 6 := by simp

theorem unpackScans_fst_nodup (count : ℕ) (fr : Bool) :
    ((unpackScans count fr).map Prod.fst).Nodup := by
  unfold unpackScans
  rw [List.map_map]
  have hnd : (pyRangeStep count 6).Nodup := List.Nodup.filter _ (List.nodup_range count)
  refine List.Nodup.map_on ?_ hnd
  intro x hx y hy hxy
  unfold pyRangeStep at hx hy
  simp only [List.mem_filter, List.mem_range, beq_iff_eq] at hx hy
  simp only [Function.comp_apply] at hxy
  omega

/-- Enumeration with `separate_scans=True` iterates in steps of 6 into
distinct sub-locations and extracts a trailing partial group (claim C5):
a 14-node container yields scan groups of 6, 6 and 2 nodes; scan numbers
are pairwise distinct; every group member is an existing node index;
every group has at most 6 members; and a group fully inside the sequence
is exactly the 6 consecutive node indices starting at its step index. -/
theorem enumerateViews_separate_scans_groups :
    (unpackScans 14 false = [(1, [0,1,2,3,4,5]), (2, [6,7,8,9,10,11]), (3, [12,13])]) ∧
    (∀ (count : ℕ) (fr : Bool), ((unpackScans count fr).map Prod.fst).Nodup) ∧
    (∀ (count i : ℕ) (fr : Bool), ∀ m ∈ groupNodes count i fr, m < count) ∧
    (∀ (count i : ℕ) (fr : Bool), (groupNodes count i fr).length ≤ 6) ∧
    (∀ count i : ℕ, i + 6 ≤ count →
      groupNodes count i false = [i, i+1, i+2, i+3, i+4, i+5]) := by
  refine ⟨by decide, fun count fr => unpackScans_fst_nodup count fr,
    fun count i fr => groupNodes_mem_lt count i fr,
    fun count i fr => groupNodes_length_le count i fr, ?_⟩
  intro count i h6
  unfold groupNodes
  simp only [Bool.false_eq_true, if_false, show List.range 6 = [0,1,2,3,4,5] from rfl,
    List.filterMap_cons, List.filterMap_nil]
  rw [if_pos (by omega), if_pos (by omega), if_pos (by omega), if_pos (by omega),
    if_pos (by omega), if_pos (by omega)]
  simp

theorem enumerateViews_separate_scans_groups_witness :
    groupNodes 20 6 false = [6, 7, 8, 9, 10, 11] ∧ (13 : ℕ) < 14 := by
  constructor
  · have h := enumerateViews_separate_scans_groups.2.2.2.2 20 6 (by omega)
    simpa using h
  · exact enumerateViews_separate_scans_groups.2.2.1 14 12 false 13 (by decide)

/-- With `front_views_only=True` exactly the front views are extracted
(claim C6): a 12-node container in `separate_scans` mode yields exactly
the two views 1 and 7, one per scan group; in general the nodes extracted
across all scan groups are exactly those at positions congruent to 1
modulo 6, and the flat (`separate_scans=False`) mode extracts exactly the
same set of positions. -/
theorem front_views_only_extraction :
    (unpackScans 12 true = [(1, [1]), (2, [7])]) ∧
    (∀ count m : ℕ,
      m ∈ ((unpackScans count true).map Prod.snd).flatten ↔ m < count ∧ m % 6 = 1) ∧
    (∀ count m : ℕ, m ∈ unpackFlat count true ↔ m < count ∧ m % 6 = 1) := by
  refine ⟨by decide, ?_, ?_⟩
  · intro count m
    unfold unpackScans pyRangeStep groupNodes
    simp only [List.map_map, List.mem_flatten, List.mem_map, List.mem_filter, List.mem_range,
      Function.comp_apply, beq_iff_eq, if_true]
    constructor
    · rintro ⟨g, ⟨i, ⟨hi, hi6⟩, rfl⟩, hm⟩
      split at hm
      · simp at hm; omega
      · simp at hm
    · rintro ⟨hm, hm6⟩
      refine ⟨_, ⟨m - 1, ⟨by omega, by omega⟩, rfl⟩, ?_⟩
      rw [if_pos (by omega)]
      simp
      omega
  · intro count m
    unfold unpackFlat
    simp [List.mem_filter]

/-! ## Spatial deduplication and submission indices
(`submit.has_point_within`, `submit.process_poses`) -/

/-- A capture position, the triple `(px, py, pz)` read from one metadata
record.  Coordinates are modelled by exact rationals. -/
abbrev Vec3 := ℚ × ℚ × ℚ

/-- Squared Euclidean distance `np.sum((p - point) ** 2)` between two
positions.  The source compares `np.sqrt` of this value against
thresholds; those comparisons are encoded exactly by `sqrtLe`. -/
def dist2 (p q : Vec3) : ℚ :=
  (p.1 - q.1)^2 + (p.2.1 - q.2.1)^2 + (p.2.2 - q.2.2)^2

/-- Executable encoding of the comparison `np.sqrt s <= c` for a
nonnegative radicand `s`: it holds exactly when `c` is nonnegative and
`s ≤ c²`.  `sqrtLe_iff_sqrt_le` proves it equivalent to the real
square-root comparison. -/
def sqrtLe (s c : ℚ) : Prop := 0 ≤ c ∧ s ≤ c^2

instance sqrtLe.instDecidable (s c : ℚ) : Decidable (sqrtLe s c) := by
  unfold sqrtLe; infer_instance

/-- Model of `submit.has_point_within`: walk the accepted positions; a
distance at or below `min_distance` (default `0.01`) is skipped via
`continue`; a remaining distance at or below `distance_threshold` returns
`True`; otherwise the loop continues and finally returns `False`. -/
def has_point_within (point : Vec3) (points : List Vec3) (distance_threshold : ℚ)
    (min_distance : ℚ := 1/100) : Bool :=
  match points with
  | [] => false
  | p :: rest =>
    if sqrtLe (dist2 p point) min_distance then
      has_point_within point rest distance_threshold min_distance
    else if sqrtLe (dist2 p point) distance_threshold then
      true
    else
      has_point_within point rest distance_threshold min_distance

/-- The submission loop of `submit.process_poses` restricted to what it
sends: iterating `enumerate(images_and_poses)` with the accepted-position
list `points`, a pose is skipped when the threshold is not `-1` and
`has_point_within` flags it; otherwise its position is appended to
`points` and its enumeration index `i` is passed to `submit_image` as the
capture `index`.  Returns the list of indices sent. -/
def process_poses_aux (threshold : ℚ) : List Vec3 → List (ℕ × Vec3) → List ℕ
  | _, [] => []
  | points, (i, pos) :: rest =>
    if threshold ≠ -1 ∧ has_point_within pos points threshold then
      process_poses_aux threshold points rest
    else
      i :: process_poses_aux threshold (points ++ [pos]) rest

/-- The sequence of `index` values sent to `/capture` over one run of
`process_poses` on the given pose list. -/
def submitted_indices (poses : List Vec3) (threshold : ℚ) : List ℕ :=
  process_poses_aux threshold [] poses.enum

theorem dist2_nonneg (p q : Vec3) : 0 ≤ dist2 p q := by
  unfold dist2; positivity

theorem sqrtLe_iff_sqrt_le (s c : ℚ) :
    sqrtLe s c ↔ Real.sqrt (s : ℝ) ≤ (c : ℝ) := by
  rw [Real.sqrt_le_iff]
  unfold sqrtLe
  constructor
  · rintro ⟨h1, h2⟩
    exact ⟨by exact_mod_cast h1, by exact_mod_cast h2⟩
  · rintro ⟨h1, h2⟩
    refine ⟨by exact_mod_cast h1, ?_⟩
    have h : (s : ℝ) ≤ (c : ℝ)^2 := h2
    exact_mod_cast h

theorem has_point_within_iff (point : Vec3) (points : List Vec3) (thr : ℚ) :
    has_point_within point points thr = true ↔
      ∃ p ∈ points, (1/100 : ℝ) < Real.sqrt (dist2 p point) ∧
        Real.sqrt (dist2 p point) ≤ (thr : ℝ) := by
  induction points with
  | nil => simp [has_point_within]
  | cons p rest ih =>
    unfold has_point_within
    by_cases hmin : sqrtLe (dist2 p point) (1/100)
    · rw [if_pos hmin]
      rw [sqrtLe_iff_sqrt_le] at hmin
      push_cast at hmin
      rw [ih]
      constructor
      · rintro ⟨q, hq, h⟩; exact ⟨q, List.mem_cons_of_mem _ hq, h⟩
      · rintro ⟨q, hq, h1, h2⟩
        rcases List.mem_cons.mp hq with rfl | hq
        · exact absurd hmin (not_le.mpr h1)
        · exact ⟨q, hq, h1, h2⟩
    · rw [if_neg hmin]
      rw [sqrtLe_iff_sqrt_le] at hmin
      push_cast at hmin
      push_neg at hmin
      by_cases hthr : sqrtLe (dist2 p point) thr
      · rw [if_pos hthr]
        rw [sqrtLe_iff_sqrt_le] at hthr
        simp only [true_iff]
        exact ⟨p, List.mem_cons_self p rest, hmin, hthr⟩
      · rw [if_neg hthr]
        rw [sqrtLe_iff_sqrt_le] at hthr
        push_neg at hthr
        rw [ih]
        constructor
        · rintro ⟨q, hq, h⟩; exact ⟨q, List.mem_cons_of_mem _ hq, h⟩
        · rintro ⟨q, hq, h1, h2⟩
          rcases List.mem_cons.mp hq with rfl | hq
          · exact absurd hthr (not_lt.mpr h2)
          · exact ⟨q, hq, h1, h2⟩

theorem process_poses_aux_sublist (threshold : ℚ) :
    ∀ (l : List (ℕ × Vec3)) (pts : List Vec3),
      (process_poses_aux threshold pts l).Sublist (l.map Prod.fst) := by
  intro l
  induction l with
  | nil => intro pts; simp [process_poses_aux]
  | cons x rest ih =>
    intro pts
    obtain ⟨i, pos⟩ := x
    unfold process_poses_aux
    split
    · exact (ih pts).trans (List.sublist_cons_self _ _)
    · exact (ih (pts ++ [pos])).cons₂ i

theorem has_point_within_nil (point : Vec3) (thr min : ℚ) :
    has_point_within point [] thr min = false := rfl

theorem process_poses_aux_neg_one (l : List (ℕ × Vec3)) :
    ∀ pts, process_poses_aux (-1) pts l = l.map Prod.fst := by
  induction l with
  | nil => intro pts; simp [process_poses_aux]
  | cons x rest ih =>
    intro pts
    obtain ⟨i, pos⟩ := x
    unfold process_poses_aux
    rw [if_neg (by simp)]
    rw [ih]
    rfl

theorem submitted_indices_neg_one (poses : List Vec3) :
    submitted_indices poses (-1) = List.range poses.length := by
  unfold submitted_indices
  rw [process_poses_aux_neg_one]
  simp [List.enum, List.range_eq_range']

theorem submitted_indices_increasing (poses : List Vec3) (threshold : ℚ) :
    (submitted_indices poses threshold).Pairwise (· < ·) := by
  have h := process_poses_aux_sublist threshold poses.enum []
  have henum : (poses.enum.map Prod.fst) = List.range poses.length := by
    simp [List.enum, List.range_eq_range']
  rw [henum] at h
  exact (List.pairwise_lt_range _).sublist h

theorem submitted_indices_head (p : Vec3) (rest : List Vec3) (threshold : ℚ) :
    (submitted_indices (p :: rest) threshold).head? = some 0 := by
  unfold submitted_indices
  rw [show (p :: rest).enum = (0, p) :: (rest.enumFrom 1) from rfl]
  unfold process_poses_aux
  rw [if_neg (by simp [has_point_within_nil])]
  rfl

/-- Three concrete poses: the second lies at distance `0.02` from the
first (inside the dedup band for threshold `0.05`), the third lies at
distance `1` from both. -/
def cexPoses : List Vec3 := [(0, 0, 0), (1/50, 0, 0), (1, 0, 0)]

/-- Counterexample to claim C1: with deduplication threshold `0.05`, the
middle pose of `cexPoses` is rejected but the enumeration index keeps
advancing, so the `/capture` indices sent are `[0, 2]` — two accepted
views, yet not `0, 1`: the transmitted sequence has a gap. -/
theorem submitted_indices_gap_cex :
    submitted_indices cexPoses (1/20) = [0, 2] ∧
    submitted_indices cexPoses (1/20) ≠
      List.range (submitted_indices cexPoses (1/20)).length := by
  have h : submitted_indices cexPoses (1/20) = [0, 2] := by
    unfold submitted_indices cexPoses
    norm_num [List.enum, List.enumFrom, process_poses_aux, has_point_within, sqrtLe, dist2]
  refine ⟨h, ?_⟩
  rw [h]
  decide

/-- Claim C1 amended: the `sequenceIndex` values sent to `/capture` in one
session are the enumeration positions of the accepted views — strictly
increasing and starting at 0 — and they equal `0, 1, ..., N-1` exactly in
the no-deduplication case `threshold = -1`; when the threshold is active
and a view is rejected, later indices keep their original positions (see
the counterexample), so gaps can occur. -/
theorem submitted_indices_ordering (poses : List Vec3) (threshold : ℚ) :
    (submitted_indices poses threshold).Pairwise (· < ·) ∧
    (∀ p rest, poses = p :: rest → (submitted_indices poses threshold).head? = some 0) ∧
    (threshold = -1 → submitted_indices poses threshold = List.range poses.length) := by
  refine ⟨submitted_indices_increasing poses threshold, ?_, ?_⟩
  · rintro p rest rfl
    exact submitted_indices_head p rest threshold
  · rintro rfl
    exact submitted_indices_neg_one poses

theorem submitted_indices_ordering_witness :
    (submitted_indices cexPoses (1/20)).head? = some 0 ∧
    submitted_indices cexPoses (-1) = List.range 3 := by
  constructor
  · exact (submitted_indices_ordering cexPoses (1/20)).2.1 _ _ rfl
  · have h := (submitted_indices_ordering cexPoses (-1)).2.2 rfl
    simpa [cexPoses] using h

/-- Claim C3: the deduplication decision rule.  `has_point_within` (with
default `min_distance = 0.01`) returns `True` exactly when some
previously accepted position lies at Euclidean distance `d` with
`0.01 < d ≤ threshold`; in the submission loop a flagged pose (with an
active threshold) is dropped with the accepted set unchanged, while any
other pose is accepted, its position appended to the accepted set and its
index emitted; and `threshold = -1` accepts every candidate. -/
theorem dedup_decision_rule (point : Vec3) (points : List Vec3) (thr : ℚ) :
    (has_point_within point points thr = true ↔
      ∃ p ∈ points, (1/100 : ℝ) < Real.sqrt (dist2 p point) ∧
        Real.sqrt (dist2 p point) ≤ (thr : ℝ)) ∧
    (∀ (i : ℕ) (pos : Vec3) (rest : List (ℕ × Vec3)) (pts : List Vec3),
      process_poses_aux thr pts ((i, pos) :: rest) =
        if thr ≠ -1 ∧ has_point_within pos pts thr then
          process_poses_aux thr pts rest
        else
          i :: process_poses_aux thr (pts ++ [pos]) rest) ∧
    (∀ poses : List Vec3, submitted_indices poses (-1) = List.range poses.length) := by
  refine ⟨has_point_within_iff point points thr, ?_, submitted_indices_neg_one⟩
  intro i pos rest pts
  rfl

/-! ## Coordinate-frame correction (`submit.process_poses`) -/

/-- The fixed matrix `TD` of `process_poses`, a −90° rotation about the
global X axis. -/
def TD : Matrix (Fin 4) (Fin 4) ℚ :=
  !![1, 0, 0, 0;
     0, 0, 1, 0;
     0, -1, 0, 0;
     0, 0, 0, 1]

/-- The homogeneous transform `T` built by `process_poses`: the source
rotation with its second and third columns sign-negated ("invert Y & Z")
and the translation in the last column. -/
def frameT (px py pz r00 r01 r02 r10 r11 r12 r20 r21 r22 : ℚ) :
    Matrix (Fin 4) (Fin 4) ℚ :=
  !![r00, -r01, -r02, px;
     r10, -r11, -r12, py;
     r20, -r21, -r22, pz;
     0, 0, 0, 1]

/-- The corrected pose `np.dot(TD, T)` computed by `process_poses`. -/
def frameCorrect (px py pz r00 r01 r02 r10 r11 r12 r20 r21 r22 : ℚ) :
    Matrix (Fin 4) (Fin 4) ℚ :=
  TD * frameT px py pz r00 r01 r02 r10 r11 r12 r20 r21 r22

/-- Counterexample to claim C2: at the origin with the identity rotation
the corrected pose is not the fixed matrix `TD`; entry `(1,2)` of the
result is `-1` while `TD` has `1` there. -/
theorem frameCorrect_identity_ne_TD :
    frameCorrect 0 0 0 1 0 0 0 1 0 0 0 1 ≠ TD := by
  intro h
  have h12 := congrFun (congrFun h 1) 2
  unfold frameCorrect frameT TD at h12
  simp [Matrix.mul_apply, Fin.sum_univ_four] at h12
  norm_num at h12

/-- Claim C2 amended: for a pose at the origin with the identity
rotation, the Y/Z sign-flip turns `T` into `diag(1,-1,-1,1)`, and the
corrected pose `TD ⬝ T` is `TD` with its second and third columns
sign-negated — the matrix `[[1,0,0,0],[0,0,-1,0],[0,1,0,0],[0,0,0,1]]` —
rather than `TD` itself. -/
theorem frameCorrect_identity :
    frameCorrect 0 0 0 1 0 0 0 1 0 0 0 1 =
      !![1, 0, 0, 0;
         0, 0, -1, 0;
         0, 1, 0, 0;
         0, 0, 0, 1] := by
  unfold frameCorrect frameT TD
  ext i j
  fin_cases i <;> fin_cases j <;>
    simp [Matrix.mul_apply, Fin.sum_univ_four, Matrix.vecHead, Matrix.vecTail]

/-! ## Extraction metadata (`unpack.MatterportImage`,
`unpack.quaternion_to_matrix3x3`)

Rotation entries are computed with NumPy double arithmetic in the source;
since normalising an all-zero quaternion divides by zero, the values are
modelled by `FV`, rationals extended with the IEEE special values. -/

/-- A double value: a finite (rational) number, one of the two
infinities, or NaN. -/
inductive FV where
  | fin : ℚ → FV
  | inf : FV
  | ninf : FV
  | nan : FV
deriving DecidableEq

/-- IEEE negation on `FV`. -/
def fvNeg : FV → FV
  | .fin q => .fin (-q)
  | .inf => .ninf
  | .ninf => .inf
  | .nan => .nan

/-- IEEE addition on `FV`: NaN propagates, opposite infinities give NaN. -/
def fvAdd : FV → FV → FV
  | .nan, _ => .nan
  | _, .nan => .nan
  | .fin a, .fin b => .fin (a + b)
  | .fin _, .inf => .inf
  | .fin _, .ninf => .ninf
  | .inf, .fin _ => .inf
  | .ninf, .fin _ => .ninf
  | .inf, .inf => .inf
  | .ninf, .ninf => .ninf
  | .inf, .ninf => .nan
  | .ninf, .inf => .nan

/-- IEEE subtraction on `FV`. -/
def fvSub (a b : FV) : FV := fvAdd a (fvNeg b)

/-- IEEE multiplication on `FV`: NaN propagates, zero times infinity is
NaN, otherwise infinities keep the sign rule. -/
def fvMul : FV → FV → FV
  | .nan, _ => .nan
  | _, .nan => .nan
  | .fin a, .fin b => .fin (a * b)
  | .fin a, .inf => if a = 0 then .nan else if 0 < a then .inf else .ninf
  | .inf, .fin a => if a = 0 then .nan else if 0 < a then .inf else .ninf
  | .fin a, .ninf => if a = 0 then .nan else if 0 < a then .ninf else .inf
  | .ninf, .fin a => if a = 0 then .nan else if 0 < a then .ninf else .inf
  | .inf, .inf => .inf
  | .ninf, .ninf => .inf
  | .inf, .ninf => .ninf
  | .ninf, .inf => .ninf

/-- IEEE division on `FV` (modulo the absence of a signed zero, which the
development never relies on): NaN propagates, a nonzero finite number
divided by zero gives a signed infinity, and `0/0` gives NaN. -/
def fvDiv : FV → FV → FV
  | .nan, _ => .nan
  | _, .nan => .nan
  | .fin a, .fin b =>
    if b = 0 then (if a = 0 then .nan else if 0 < a then .inf else .ninf)
    else .fin (a / b)
  | .fin _, .inf => .fin 0
  | .fin _, .ninf => .fin 0
  | .inf, .fin b => if 0 ≤ b then .inf else .ninf
  | .ninf, .fin b => if 0 ≤ b then .ninf else .inf
  | .inf, .inf => .nan
  | .inf, .ninf => .nan
  | .ninf, .inf => .nan
  | .ninf, .ninf => .nan

/-- A quaternion `(x, y, z, w)` as read from the container (finite
doubles, modelled as rationals). -/
structure Quat where
  x : ℚ
  y : ℚ
  z : ℚ
  w : ℚ
deriving DecidableEq

/-- A 3×3 rotation matrix of double values, the result type of
`quaternion_to_matrix3x3`. -/
structure Mat3F where
  m00 : FV
  m01 : FV
  m02 : FV
  m10 : FV
  m11 : FV
  m12 : FV
  m20 : FV
  m21 : FV
  m22 : FV
deriving DecidableEq

/-- Model of `unpack.quaternion_to_matrix3x3`: compute
`n = 1.0 / np.sqrt(x² + y² + z² + w²)` with no guard against a zero norm,
scale the four components by `n`, then fill in the standard rotation
matrix.  The square-root function is a parameter `sqrtf` modelling
`np.sqrt`; the theorems assume of it only IEEE facts such as
`sqrt 0 = 0`. -/
def quaternion_to_matrix3x3 (sqrtf : FV → FV) (q : Quat) : Mat3F :=
  let n := fvDiv (FV.fin 1) (sqrtf (FV.fin (q.x * q.x + q.y * q.y + q.z * q.z + q.w * q.w)))
  let qx := fvMul (FV.fin q.x) n
  let qy := fvMul (FV.fin q.y) n
  let qz := fvMul (FV.fin q.z) n
  let qw := fvMul (FV.fin q.w) n
  { m00 := fvSub (fvSub (FV.fin 1) (fvMul (fvMul (FV.fin 2) qy) qy)) (fvMul (fvMul (FV.fin 2) qz) qz)
    m01 := fvSub (fvMul (fvMul (FV.fin 2) qx) qy) (fvMul (fvMul (FV.fin 2) qz) qw)
    m02 := fvAdd (fvMul (fvMul (FV.fin 2) qx) qz) (fvMul (fvMul (FV.fin 2) qy) qw)
    m10 := fvAdd (fvMul (fvMul (FV.fin 2) qx) qy) (fvMul (fvMul (FV.fin 2) qz) qw)
    m11 := fvSub (fvSub (FV.fin 1) (fvMul (fvMul (FV.fin 2) qx) qx)) (fvMul (fvMul (FV.fin 2) qz) qz)
    m12 := fvSub (fvMul (fvMul (FV.fin 2) qy) qz) (fvMul (fvMul (FV.fin 2) qx) qw)
    m20 := fvSub (fvMul (fvMul (FV.fin 2) qx) qz) (fvMul (fvMul (FV.fin 2) qy) qw)
    m21 := fvAdd (fvMul (fvMul (FV.fin 2) qy) qz) (fvMul (fvMul (FV.fin 2) qx) qw)
    m22 := fvSub (fvSub (FV.fin 1) (fvMul (fvMul (FV.fin 2) qx) qx)) (fvMul (fvMul (FV.fin 2) qy) qy) }

/-- The `pose` sub-structure of a view node: translation and rotation
quaternion. -/
structure PoseNode where
  tx : ℚ
  ty : ℚ
  tz : ℚ
  qx : ℚ
  qy : ℚ
  qz : ℚ
  qw : ℚ

/-- The attributes of one element of the container's `images2D`
collection that `MatterportImage.__init__` reads: unique identifier,
which image encodings the chosen representation defines, the optional
pose, and the optional intrinsic attributes. -/
structure ViewNode where
  guid : String
  hasJpegImage : Bool
  hasPngImage : Bool
  pose : Option PoseNode
  imageWidth : Option ℚ
  imageHeight : Option ℚ
  focalLength : Option ℚ
  principalPointX : Option ℚ
  principalPointY : Option ℚ

/-- The state built by `MatterportImage.__init__`. -/
structure MatterportImage where
  guid : String
  imageFileExt : String
  translation : Vec3
  quaternion : Quat
  rotationMatrix : Mat3F
  imageWidth : Option ℚ
  imageHeight : Option ℚ
  focalLength : Option ℚ
  principalPointX : Option ℚ
  principalPointY : Option ℚ

/-- Model of `MatterportImage.__init__`: extension `jpg` when a JPEG blob
is defined, else `png` when a PNG blob is defined; translation and
quaternion default to all zeros when no `pose` sub-structure exists; the
rotation matrix is always computed from the (possibly all-zero)
quaternion; the optional attributes pass through. -/
def matterportInit (sqrtf : FV → FV) (node : ViewNode) : MatterportImage :=
  let ext := if node.hasJpegImage then "jpg" else if node.hasPngImage then "png" else ""
  let tr : Vec3 :=
    match node.pose with
    | some p => (p.tx, p.ty, p.tz)
    | none => (0, 0, 0)
  let qt : Quat :=
    match node.pose with
    | some p => ⟨p.qx, p.qy, p.qz, p.qw⟩
    | none => ⟨0, 0, 0, 0⟩
  { guid := node.guid
    imageFileExt := ext
    translation := tr
    quaternion := qt
    rotationMatrix := quaternion_to_matrix3x3 sqrtf qt
    imageWidth := node.imageWidth
    imageHeight := node.imageHeight
    focalLength := node.focalLength
    principalPointX := node.principalPointX
    principalPointY := node.principalPointY }

/-- The JSON object written by `MatterportImage.writeMetadata`. -/
structure MetadataRecord where
  img : String
  px : ℚ
  py : ℚ
  pz : ℚ
  r00 : FV
  r01 : FV
  r02 : FV
  r10 : FV
  r11 : FV
  r12 : FV
  r20 : FV
  r21 : FV
  r22 : FV
  fx : ℚ
  fy : ℚ
  ox : ℚ
  oy : ℚ

/-- Model of `MatterportImage.writeMetadata`: `fx = imageWidth *
focalLength` and `fy = imageHeight * focalLength` when `focalLength` is
present (a `TypeError` — modelled as `none` — if the pixel dimensions are
absent while `focalLength` is present), else `0`; `ox`/`oy` are the
principal point when present, else `0`. -/
def writeMetadata (img : MatterportImage) : Option MetadataRecord :=
  let oxv : ℚ := match img.principalPointX with | some v => v | none => 0
  let oyv : ℚ := match img.principalPointY with | some v => v | none => 0
  let base : ℚ → ℚ → MetadataRecord := fun fxv fyv =>
    { img := img.guid
      px := img.translation.1
      py := img.translation.2.1
      pz := img.translation.2.2
      r00 := img.rotationMatrix.m00
      r01 := img.rotationMatrix.m01
      r02 := img.rotationMatrix.m02
      r10 := img.rotationMatrix.m10
      r11 := img.rotationMatrix.m11
      r12 := img.rotationMatrix.m12
      r20 := img.rotationMatrix.m20
      r21 := img.rotationMatrix.m21
      r22 := img.rotationMatrix.m22
      fx := fxv
      fy := fyv
      ox := oxv
      oy := oyv }
  match img.focalLength with
  | none => some (base 0 0)
  | some f =>
    match img.imageWidth, img.imageHeight with
    | some w, some h => some (base (w * f) (h * f))
    | _, _ => none

/-- The file path written by `MatterportImage.writeImageBytes`:
`<path>/<guid>.<ext>` with the extension chosen at extraction time. -/
def writeImageBytes_path (img : MatterportImage) (path : String) : String :=
  path ++ "/" ++ img.guid ++ "." ++ img.imageFileExt

/-- The image path built by `submit.main` for one metadata record:
the record's `img` field with `.jpg` appended, joined to the record's
directory. -/
def submission_image_path (dir img_field : String) : String :=
  dir ++ "/" ++ img_field ++ ".jpg"

/-- All-NaN rotation matrix. -/
def allNanMat : Mat3F :=
  ⟨.nan, .nan, .nan, .nan, .nan, .nan, .nan, .nan, .nan⟩

/-- The identity rotation matrix over `FV`. -/
def mat3Identity : Mat3F :=
  ⟨.fin 1, .fin 0, .fin 0, .fin 0, .fin 1, .fin 0, .fin 0, .fin 0, .fin 1⟩

/-- A concrete view node with a JPEG blob, no pose and no optional
intrinsic attributes. -/
def noIntrinsicsNode : ViewNode :=
  { guid := "v1"
    hasJpegImage := true
    hasPngImage := false
    pose := none
    imageWidth := some 1024
    imageHeight := some 512
    focalLength := none
    principalPointX := none
    principalPointY := none }

/-- A concrete view node whose representation defines only a PNG blob. -/
def pngNode : ViewNode :=
  { guid := "p1"
    hasJpegImage := false
    hasPngImage := true
    pose := none
    imageWidth := none
    imageHeight := none
    focalLength := none
    principalPointX := none
    principalPointY := none }

/-- Fallback record used to name the concrete result of `writeMetadata`
in closed statements. -/
def dfltRecord : MetadataRecord :=
  ⟨"", 0, 0, 0, .nan, .nan, .nan, .nan, .nan, .nan, .nan, .nan, .nan, 0, 0, 0, 0⟩

theorem writeMetadata_img (img : MatterportImage) (r : MetadataRecord)
    (h : writeMetadata img = some r) : r.img = img.guid := by
  unfold writeMetadata at h
  rcases hf : img.focalLength with _ | f <;> rw [hf] at h
  · simp only [Option.some_inj] at h
    subst h
    rfl
  · rcases hw : img.imageWidth with _ | w <;> rw [hw] at h
    · cases h
    · rcases hh : img.imageHeight with _ | hgt <;> rw [hh] at h
      · cases h
      · simp only [Option.some_inj] at h
        subst h
        rfl

/-- Counterexample to claim C4: on a node with no focal length and no
principal point, the metadata record defaults all four intrinsic scalars
to exactly `0` — not to a non-zero sentinel — so unavailability is not
distinguishable from a true zero. -/
theorem metadata_absent_intrinsics_zero_cex :
    (writeMetadata (matterportInit (fun _ => FV.fin 0) noIntrinsicsNode)).map
      (fun r => (r.fx, r.fy, r.ox, r.oy)) = some (0, 0, 0, 0) := rfl

/-- Claim C4 amended: in the destination metadata record every absent
optional numeric intrinsic attribute (focal length, principal point)
defaults to the value `0` rather than to a non-zero sentinel. -/
theorem metadata_absent_intrinsics_default (sqrtf : FV → FV) (node : ViewNode)
    (r : MetadataRecord) (h : writeMetadata (matterportInit sqrtf node) = some r) :
    (node.focalLength = none → r.fx = 0 ∧ r.fy = 0) ∧
    (node.principalPointX = none → r.ox = 0) ∧
    (node.principalPointY = none → r.oy = 0) := by
  unfold writeMetadata matterportInit at h
  simp only at h
  rcases hf : node.focalLength with _ | f <;> rw [hf] at h
  · simp only [Option.some_inj] at h
    subst h
    rcases hx : node.principalPointX <;> rcases hy : node.principalPointY <;>
      simp [hx, hy]
  · rcases hw : node.imageWidth with _ | w <;> rw [hw] at h
    · cases h
    · rcases hh : node.imageHeight with _ | hgt <;> rw [hh] at h
      · cases h
      · simp only [Option.some_inj] at h
        subst h
        refine ⟨by simp [hf], ?_, ?_⟩ <;>
          [rcases hx : node.principalPointX <;> simp [hx];
           rcases hy : node.principalPointY <;> simp [hy]]

theorem metadata_absent_intrinsics_default_witness :
    (writeMetadata (matterportInit (fun _ => FV.fin 0) noIntrinsicsNode)).map
      (fun r => (r.ox, r.oy)) = some (0, 0) := by
  have hsome : writeMetadata (matterportInit (fun _ => FV.fin 0) noIntrinsicsNode) =
      some ((writeMetadata (matterportInit (fun _ => FV.fin 0) noIntrinsicsNode)).getD
        dfltRecord) := rfl
  have h := metadata_absent_intrinsics_default (fun _ => FV.fin 0) noIntrinsicsNode _ hsome
  rw [hsome]
  simp only [Option.map_some']
  exact congrArg some (Prod.ext (h.2.1 rfl) (h.2.2 rfl))

/-- Claim C9: the image path handed to submission is always the
metadata's `img` identifier with `.jpg` appended, regardless of the image
encoding chosen at extraction time; in particular a view extracted from a
PNG-only representation is written as `<dir>/<guid>.png` yet loaded at
submission time as `<dir>/<guid>.jpg`. -/
theorem submission_path_ignores_extraction_ext (sqrtf : FV → FV) (node : ViewNode)
    (dir : String) (r : MetadataRecord)
    (h : writeMetadata (matterportInit sqrtf node) = some r) :
    submission_image_path dir r.img = dir ++ "/" ++ node.guid ++ ".jpg" ∧
    (node.hasJpegImage = false → node.hasPngImage = true →
      writeImageBytes_path (matterportInit sqrtf node) dir =
        dir ++ "/" ++ node.guid ++ ".png") := by
  constructor
  · have himg : r.img = (matterportInit sqrtf node).guid := writeMetadata_img _ _ h
    have hguid : (matterportInit sqrtf node).guid = node.guid := rfl
    unfold submission_image_path
    rw [himg, hguid]
  · intro hj hpng
    unfold writeImageBytes_path matterportInit
    simp only [hj, hpng, Bool.false_eq_true, if_false, if_true]
    rw [String.append_assoc]
    rfl

theorem submission_path_ignores_extraction_ext_witness :
    submission_image_path ("d")
        (((writeMetadata (matterportInit (fun _ => FV.fin 0) pngNode)).getD dfltRecord).img) =
      "d/p1.jpg" ∧
    writeImageBytes_path (matterportInit (fun _ => FV.fin 0) pngNode) ("d") = "d/p1.png" := by
  have hsome : writeMetadata (matterportInit (fun _ => FV.fin 0) pngNode) =
      some ((writeMetadata (matterportInit (fun _ => FV.fin 0) pngNode)).getD dfltRecord) := rfl
  have h := submission_path_ignores_extraction_ext (fun _ => FV.fin 0) pngNode ("d") _ hsome
  exact ⟨h.1, h.2 rfl rfl⟩

/-- Claim C10: for a view node without a `pose` sub-structure the
translation defaults to the zero vector and the quaternion to
`(0,0,0,0)`; `quaternion_to_matrix3x3` then computes the normalisation
factor `1.0 / sqrt(0)`, an unguarded division by zero yielding infinity,
and every entry of the rotation matrix written to the metadata record is
NaN (`0 · ∞`) — not an identity rotation. -/
theorem poseless_rotation_nan (node : ViewNode) (sqrtf : FV → FV)
    (hp : node.pose = none) (hs : sqrtf (FV.fin 0) = FV.fin 0) :
    (matterportInit sqrtf node).translation = (0, 0, 0) ∧
    (matterportInit sqrtf node).quaternion = ⟨0, 0, 0, 0⟩ ∧
    fvDiv (FV.fin 1) (sqrtf (FV.fin (0*0 + 0*0 + 0*0 + 0*0))) = FV.inf ∧
    (matterportInit sqrtf node).rotationMatrix = allNanMat ∧
    (matterportInit sqrtf node).rotationMatrix ≠ mat3Identity := by
  have hzero : (0*0 + 0*0 + 0*0 + 0*0 : ℚ) = 0 := by norm_num
  have hdiv : fvDiv (FV.fin 1) (sqrtf (FV.fin (0*0 + 0*0 + 0*0 + 0*0))) = FV.inf := by
    rw [hzero, hs]
    norm_num [fvDiv]
  have hmat : (matterportInit sqrtf node).rotationMatrix = allNanMat := by
    unfold matterportInit
    simp only [hp]
    unfold quaternion_to_matrix3x3
    simp only
    rw [hzero, hs]
    norm_num [fvDiv, fvMul, fvAdd, fvSub, fvNeg, allNanMat]
  refine ⟨?_, ?_, hdiv, hmat, ?_⟩
  · unfold matterportInit; simp [hp]
  · unfold matterportInit; simp [hp]
  · rw [hmat]; decide

theorem poseless_rotation_nan_witness :
    (matterportInit (fun _ => FV.fin 0) noIntrinsicsNode).rotationMatrix = allNanMat ∧
    (matterportInit (fun _ => FV.fin 0) noIntrinsicsNode).translation = (0, 0, 0) :=
  ⟨(poseless_rotation_nan noIntrinsicsNode (fun _ => FV.fin 0) rfl rfl).2.2.2.1,
   (poseless_rotation_nan noIntrinsicsNode (fun _ => FV.fin 0) rfl rfl).1⟩

/-! ## Capture request framing (`submit.submit_image`)

The request body is `json.dumps(data).encode() + b"\x00" + img_bytes`.
`json.dumps` runs with `ensure_ascii=True`, so every header character is
escaped into printable ASCII; the numeric rendering of Python's
float/int `repr` is abstracted as a parameter constrained to produce
non-NUL ASCII, which digits, sign, dot and exponent characters satisfy. -/

/-- Lower-case hexadecimal digit of a value below 16, as CPython's
escaper writes it: `0`-`9` then `a`-`f`. -/
def hexDigit (n : ℕ) : Char :=
  if n < 10 then Char.ofNat (48 + n)
  else if n < 16 then Char.ofNat (87 + n)
  else '0'

/-- One `\uXXXX` escape for a 16-bit code unit. -/
def uescape (n : ℕ) : List Char :=
  ['\\', 'u', hexDigit (n / 4096 % 16), hexDigit (n / 256 % 16),
   hexDigit (n / 16 % 16), hexDigit (n % 16)]

/-- Model of CPython's `ensure_ascii` JSON string escaping for one
character: the two-character shortcuts for quote, backslash and the
common control characters, printable ASCII kept as is, everything else as
`\uXXXX` (with a surrogate pair above the basic multilingual plane). -/
def escapeChar (c : Char) : List Char :=
  if c = '"' then ['\\', '"']
  else if c = '\\' then ['\\', '\\']
  else if c = '\n' then ['\\', 'n']
  else if c = '\r' then ['\\', 'r']
  else if c = '\t' then ['\\', 't']
  else if c.toNat = 8 then ['\\', 'b']
  else if c.toNat = 12 then ['\\', 'f']
  else if 0x20 ≤ c.toNat ∧ c.toNat ≤ 0x7e then [c]
  else if c.toNat < 0x10000 then uescape c.toNat
  else uescape (0xd800 + (c.toNat - 0x10000) / 0x400) ++
    uescape (0xdc00 + (c.toNat - 0x10000) % 0x400)

/-- A JSON string literal: the escaped characters wrapped in quotes. -/
def jsonString (s : String) : List Char :=
  '"' :: (s.toList.flatMap escapeChar) ++ ['"']

/-- The values serialised into the `/capture` JSON header by
`submit_image` (the fixed fields `run = 0` and `anchor = False` are baked
into the serialisation). -/
structure CaptureData where
  token : String
  index : ℕ
  px : ℚ
  py : ℚ
  pz : ℚ
  r00 : ℚ
  r01 : ℚ
  r02 : ℚ
  r10 : ℚ
  r11 : ℚ
  r12 : ℚ
  r20 : ℚ
  r21 : ℚ
  r22 : ℚ
  fx : ℚ
  fy : ℚ
  ox : ℚ
  oy : ℚ

/-- The segments of `json.dumps(data)` for the `/capture` dictionary, in
the source's key order, with default separators `", "` and `": "`.
`numRender` abstracts Python's `repr` for the numeric values. -/
def captureSegments (numRender : ℚ → List Char) (d : CaptureData) : List (List Char) :=
  [['\x7b'],
   jsonString ("token"), [':', ' '], jsonString d.token,
   [',', ' '], jsonString ("run"), [':', ' '], numRender 0,
   [',', ' '], jsonString ("index"), [':', ' '], numRender (d.index : ℚ),
   [',', ' '], jsonString ("anchor"), [':', ' '], ['f', 'a', 'l', 's', 'e'],
   [',', ' '], jsonString ("px"), [':', ' '], numRender d.px,
   [',', ' '], jsonString ("py"), [':', ' '], numRender d.py,
   [',', ' '], jsonString ("pz"), [':', ' '], numRender d.pz,
   [',', ' '], jsonString ("r00"), [':', ' '], numRender d.r00,
   [',', ' '], jsonString ("r01"), [':', ' '], numRender d.r01,
   [',', ' '], jsonString ("r02"), [':', ' '], numRender d.r02,
   [',', ' '], jsonString ("r10"), [':', ' '], numRender d.r10,
   [',', ' '], jsonString ("r11"), [':', ' '], numRender d.r11,
   [',', ' '], jsonString ("r12"), [':', ' '], numRender d.r12,
   [',', ' '], jsonString ("r20"), [':', ' '], numRender d.r20,
   [',', ' '], jsonString ("r21"), [':', ' '], numRender d.r21,
   [',', ' '], jsonString ("r22"), [':', ' '], numRender d.r22,
   [',', ' '], jsonString ("fx"), [':', ' '], numRender d.fx,
   [',', ' '], jsonString ("fy"), [':', ' '], numRender d.fy,
   [',', ' '], jsonString ("ox"), [':', ' '], numRender d.ox,
   [',', ' '], jsonString ("oy"), [':', ' '], numRender d.oy,
   ['\x7d']]

/-- The `/capture` JSON header `json.dumps(data)` as a character list. -/
def captureHeader (numRender : ℚ → List Char) (d : CaptureData) : List Char :=
  (captureSegments numRender d).flatten

/-- The `/capture` request body built by `submit_image`:
`json_bytes + b"\x00" + img_bytes` (the header is pure ASCII, so its
UTF-8 bytes are the character codes). -/
def captureBody (numRender : ℚ → List Char) (d : CaptureData) (imgBytes : List ℕ) : List ℕ :=
  (captureHeader numRender d).map Char.toNat ++ [0] ++ imgBytes

theorem hexDigit_ascii (n : ℕ) : 0 < (hexDigit n).toNat ∧ (hexDigit n).toNat < 128 := by
  by_cases h : n < 16
  · interval_cases n <;> decide
  · unfold hexDigit
    rw [if_neg (by omega), if_neg (by omega)]
    decide

theorem uescape_ascii (n : ℕ) : ∀ c ∈ uescape n, 0 < c.toNat ∧ c.toNat < 128 := by
  intro c hc
  unfold uescape at hc
  simp only [List.mem_cons, List.not_mem_nil, or_false] at hc
  rcases hc with rfl | rfl | rfl | rfl | rfl | rfl
  · decide
  · decide
  · exact hexDigit_ascii _
  · exact hexDigit_ascii _
  · exact hexDigit_ascii _
  · exact hexDigit_ascii _

theorem escapeChar_ascii (c : Char) : ∀ x ∈ escapeChar c, 0 < x.toNat ∧ x.toNat < 128 := by
  intro x hx
  unfold escapeChar at hx
  split_ifs at hx with h1 h2 h3 h4 h5 h6 h7 h8 h9
  · fin_cases hx <;> decide
  · fin_cases hx <;> decide
  · fin_cases hx <;> decide
  · fin_cases hx <;> decide
  · fin_cases hx <;> decide
  · fin_cases hx <;> decide
  · fin_cases hx <;> decide
  · simp only [List.mem_singleton] at hx
    subst hx
    omega
  · exact uescape_ascii _ _ hx
  · rw [List.mem_append] at hx
    rcases hx with hx | hx
    · exact uescape_ascii _ _ hx
    · exact uescape_ascii _ _ hx

theorem jsonString_ascii (s : String) : ∀ c ∈ jsonString s, 0 < c.toNat ∧ c.toNat < 128 := by
  intro c hc
  unfold jsonString at hc
  rcases List.mem_cons.mp hc with rfl | hc
  · decide
  · rcases List.mem_append.mp hc with hc | hc
    · obtain ⟨a, _, ha⟩ := List.mem_flatMap.mp hc
      exact escapeChar_ascii a c ha
    · simp only [List.mem_singleton] at hc
      subst hc
      decide

theorem captureHeader_ascii (numRender : ℚ → List Char)
    (hnum : ∀ (q : ℚ), ∀ c ∈ numRender q, 0 < c.toNat ∧ c.toNat < 128)
    (d : CaptureData) : ∀ c ∈ captureHeader numRender d, 0 < c.toNat ∧ c.toNat < 128 := by
  intro c hc
  unfold captureHeader at hc
  obtain ⟨seg, hseg, hcseg⟩ := List.mem_flatten.mp hc
  unfold captureSegments at hseg
  simp only [List.mem_cons, List.not_mem_nil, or_false] at hseg
  rcases hseg with rfl | rfl | rfl | rfl | rfl | rfl | rfl | rfl | rfl | rfl | rfl | rfl |
    rfl | rfl | rfl | rfl | rfl | rfl | rfl | rfl | rfl | rfl | rfl | rfl | rfl | rfl |
    rfl | rfl | rfl | rfl | rfl | rfl | rfl | rfl | rfl | rfl | rfl | rfl | rfl | rfl |
    rfl | rfl | rfl | rfl | rfl | rfl | rfl | rfl | rfl | rfl | rfl | rfl | rfl | rfl |
    rfl | rfl | rfl | rfl | rfl | rfl | rfl | rfl | rfl | rfl | rfl | rfl | rfl | rfl |
    rfl | rfl | rfl | rfl | rfl | rfl | rfl | rfl | rfl | rfl | rfl | rfl | rfl <;>
    first
      | exact hnum _ _ hcseg
      | exact jsonString_ascii _ _ hcseg
      | (fin_cases hcseg <;> decide)

theorem takeWhile_nul_split (hdr rest : List ℕ) (h : ∀ b ∈ hdr, b ≠ 0) :
    (hdr ++ 0 :: rest).takeWhile (fun b => b != 0) = hdr ∧
    (hdr ++ 0 :: rest).drop (hdr.length + 1) = rest := by
  induction hdr with
  | nil => simp
  | cons a t ih =>
    have ha : a ≠ 0 := h a (List.mem_cons_self a t)
    have iht := ih (fun b hb => h b (List.mem_cons_of_mem a hb))
    constructor
    · rw [List.cons_append, List.takeWhile_cons_of_pos (by simpa using ha), iht.1]
    · simp [iht.2]

/-- Claim C7: the `/capture` body is exactly the JSON header bytes, one
NUL byte, then the raw image bytes, with no length field; the header
bytes never contain a NUL (for any numeric rendering producing non-NUL
ASCII, as Python's `repr` of numbers does), so scanning for the first NUL
recovers precisely the header, and dropping it and the NUL recovers
precisely the image payload. -/
theorem capture_body_nul_framing (numRender : ℚ → List Char)
    (hnum : ∀ (q : ℚ), ∀ c ∈ numRender q, 0 < c.toNat ∧ c.toNat < 128)
    (d : CaptureData) (imgBytes : List ℕ) :
    captureBody numRender d imgBytes =
      (captureHeader numRender d).map Char.toNat ++ [0] ++ imgBytes ∧
    (∀ b ∈ (captureHeader numRender d).map Char.toNat, b ≠ 0) ∧
    (captureBody numRender d imgBytes).takeWhile (fun b => b != 0) =
      (captureHeader numRender d).map Char.toNat ∧
    (captureBody numRender d imgBytes).drop
      (((captureHeader numRender d).map Char.toNat).length + 1) = imgBytes := by
  have hhdr : ∀ b ∈ (captureHeader numRender d).map Char.toNat, b ≠ 0 := by
    intro b hb
    obtain ⟨c, hc, rfl⟩ := List.mem_map.mp hb
    have hr := captureHeader_ascii numRender hnum d c hc
    omega
  have hsplit := takeWhile_nul_split ((captureHeader numRender d).map Char.toNat) imgBytes hhdr
  refine ⟨rfl, hhdr, ?_, ?_⟩
  · rw [captureBody, List.append_assoc]
    exact hsplit.1
  · rw [captureBody, List.append_assoc]
    exact hsplit.2

/-- Concrete capture fields used by closed statements. -/
def wData : CaptureData :=
  ⟨"tk", 3, 0, 0, 0, 1, 0, 0, 0, 1, 0, 0, 0, 1, 600, 600, 320, 240⟩

theorem capture_body_nul_framing_witness :
    (captureBody (fun _ => ['0']) wData [65, 0, 66]).takeWhile (fun b => b != 0) =
      (captureHeader (fun _ => ['0']) wData).map Char.toNat ∧
    (captureBody (fun _ => ['0']) wData [65, 0, 66]).drop
      (((captureHeader (fun _ => ['0']) wData).map Char.toNat).length + 1) = [65, 0, 66] := by
  have h := capture_body_nul_framing (fun _ => ['0'])
    (by intro q c hc; simp only [List.mem_singleton] at hc; subst hc; decide)
    wData [65, 0, 66]
  exact ⟨h.2.2.1, h.2.2.2⟩

/-! ## Image resizing and intrinsics scaling (`submit.submit_image`) -/

/-- The four intrinsic scalars `(fx, fy, ox, oy)` passed to
`submit_image`. -/
structure Intrinsics where
  fx : ℚ
  fy : ℚ
  ox : ℚ
  oy : ℚ
deriving DecidableEq

/-- The image payload placed after the NUL byte by `submit_image`: the
file bytes unchanged, or — when resizing — the decoded image resized by
`cv2.resize` to the given `(new_width, new_height)` and re-encoded by
`cv2.imencode` with the `.png` extension. -/
inductive ImagePayload where
  | rawBytes : List ℕ → ImagePayload
  | resizedPng : ℤ → ℤ → ImagePayload
deriving DecidableEq

/-- Model of the resize branch of `submit_image`: when
`resize_factor != 1.0`, the decoded image of shape `(height, width)` is
resized to `math.floor(width * factor) × math.floor(height * factor)` and
re-encoded as PNG; otherwise the original bytes are sent. -/
def submit_image_payload (img_bytes : List ℕ) (height width : ℕ)
    (resize_factor : ℚ) : ImagePayload :=
  if resize_factor ≠ 1 then
    ImagePayload.resizedPng ⌊(width : ℚ) * resize_factor⌋ ⌊(height : ℚ) * resize_factor⌋
  else
    ImagePayload.rawBytes img_bytes

/-- The intrinsic scalars as placed into the `/capture` header by
`submit_image`: each input intrinsic multiplied by `resize_factor`. -/
def submit_image_intrinsics (intr : Intrinsics) (resize_factor : ℚ) : Intrinsics :=
  ⟨intr.fx * resize_factor, intr.fy * resize_factor,
   intr.ox * resize_factor, intr.oy * resize_factor⟩

theorem floor_mul_half (h : ℕ) : ⌊(h : ℚ) * (1/2)⌋ = ((h / 2 : ℕ) : ℤ) := by
  rw [mul_one_div]
  have e := Rat.floor_intCast_div_natCast (h : ℤ) 2
  push_cast at e
  rw [e]
  omega

/-- Claim C8: for every `resize_factor ≠ 1.0` the payload is the image
resized to `floor(width·f) × floor(height·f)` re-encoded as PNG and all
four transmitted intrinsics are the inputs multiplied by exactly
`resize_factor`; for `resize_factor = 0.5` the pixel dimensions are
halved by floor division and all four intrinsics are exactly halved. -/
theorem submit_image_resize_scaling (img_bytes : List ℕ) (height width : ℕ)
    (intr : Intrinsics) (rf : ℚ) (hrf : rf ≠ 1) :
    submit_image_payload img_bytes height width rf =
      ImagePayload.resizedPng ⌊(width : ℚ) * rf⌋ ⌊(height : ℚ) * rf⌋ ∧
    submit_image_intrinsics intr rf =
      ⟨intr.fx * rf, intr.fy * rf, intr.ox * rf, intr.oy * rf⟩ ∧
    (rf = 1/2 →
      submit_image_payload img_bytes height width rf =
        ImagePayload.resizedPng ((width / 2 : ℕ) : ℤ) ((height / 2 : ℕ) : ℤ) ∧
      submit_image_intrinsics intr rf =
        ⟨intr.fx / 2, intr.fy / 2, intr.ox / 2, intr.oy / 2⟩) := by
  refine ⟨by unfold submit_image_payload; rw [if_pos hrf], rfl, ?_⟩
  rintro rfl
  constructor
  · unfold submit_image_payload
    rw [if_pos hrf, floor_mul_half, floor_mul_half]
  · unfold submit_image_intrinsics
    simp only [Intrinsics.mk.injEq]
    refine ⟨by ring, by ring, by ring, by ring⟩

theorem submit_image_resize_scaling_witness :
    submit_image_payload [] 7 5 (1/2) = ImagePayload.resizedPng 2 3 ∧
    submit_image_intrinsics ⟨600, 480, 320, 240⟩ (1/2) = ⟨300, 240, 160, 120⟩ := by
  have h := (submit_image_resize_scaling [] 7 5 ⟨600, 480, 320, 240⟩ (1/2)
    (by norm_num)).2.2 rfl
  refine ⟨?_, ?_⟩
  · rw [h.1]
    norm_num
  · rw [h.2]
    norm_num
